import Mathlib

/-!
Verification of the tab-service store of the requestly repository
(src/app/src/componentsV2/Tabs/store/tabServiceStore.ts).

The store keeps a registry of tabs: a monotone id sequence, an active tab,
a preview slot, a source index (source name to source id to tab id), a tab
map (tab id to tab store) and a display order of tab ids.  JavaScript `Map`
objects are embedded as association lists with the `jsMap*` helpers below,
which model `Map.get`, `Map.has`, `Map.set` (insertion order preserved,
existing key replaced in place) and `Map.delete`.  `undefined` becomes
`Option`, and JavaScript truthiness tests on `TabId | undefined` values
(`if (tabId)`, `if (!tabId)`) are embedded by `truthyId`, which is false
for `none` and for the number `0`.
-/

/-- `Map.get`: value of the first entry with the given key. -/
def jsMapGet {κ α : Type} [DecidableEq κ] : List (κ × α) → κ → Option α
  | [], _ => none
  | p :: rest, k => if p.1 = k then some p.2 else jsMapGet rest k

/-- `Map.has`. -/
def jsMapHas {κ α : Type} [DecidableEq κ] (m : List (κ × α)) (k : κ) : Bool :=
  (jsMapGet m k).isSome

/-- `Map.set`: replace the entry in place if the key exists, else append. -/
def jsMapSet {κ α : Type} [DecidableEq κ] : List (κ × α) → κ → α → List (κ × α)
  | [], k, v => [(k, v)]
  | p :: rest, k, v => if p.1 = k then (k, v) :: rest else p :: jsMapSet rest k v

/-- `Map.delete`. -/
def jsMapDelete {κ α : Type} [DecidableEq κ] : List (κ × α) → κ → List (κ × α)
  | [], _ => []
  | p :: rest, k => if p.1 = k then jsMapDelete rest k else p :: jsMapDelete rest k

/-- `Map.keys()` in iteration order. -/
def jsMapKeys {κ α : Type} (m : List (κ × α)) : List κ :=
  m.map (·.1)

/-- JavaScript truthiness of a `TabId | undefined` value: `undefined` and
`0` are falsy. -/
def truthyId : Option Nat → Bool
  | none => false
  | some n => n != 0

/-- `Array.prototype.indexOf`: index of the first occurrence of the
element, `-1` when absent. -/
def jsIndexOf : List Nat → Nat → Int
  | [], _ => -1
  | a :: rest, x =>
    if a = x then 0
    else
      let r := jsIndexOf rest x
      if r < 0 then -1 else r + 1

/-- Modelled from the spec: a tab source (`AbstractTabSource`, whose class
hierarchy is not under src/) is a logical content identity, "identified by a
source-kind name + source-specific id", carrying a default title used by
`source.getDefaultTitle()`. -/
structure AbstractTabSource where
  sourceName : String
  sourceId : String
  defaultTitle : String
deriving DecidableEq, Repr

/-- Modelled from the spec: the per-tab state held by a tab store
(`tabStore.ts` is not under src/).  Per the data model a tab has an
identifier, an associated content source, a title, an icon, a preview flag,
an unsaved flag, a closability flag, and (per the blocker glossary entry) a
registered close blocker gate. -/
structure TabState where
  id : Nat
  source : AbstractTabSource
  title : String
  icon : Option String
  preview : Bool
  unsaved : Bool
  closable : Bool
  activeBlocker : Bool
deriving DecidableEq, Repr

/-- Modelled from the spec: `createTabStore(tabId, source, title, preview?)`
from the missing `tabStore.ts` creates a fresh tab store; the preview flag
defaults to false when not supplied, and a fresh tab starts not unsaved,
closable, with no icon and no blocker. -/
def createTabStore (tabId : Nat) (source : AbstractTabSource) (title : String)
    (preview : Option Bool) : TabState :=
  { id := tabId
    source := source
    title := title
    icon := none
    preview := preview.getD false
    unsaved := false
    closable := true
    activeBlocker := false }

/-- The registry state of the tab service store (`TabServiceState`). -/
structure TabServiceState where
  tabIdSequence : Nat
  activeTabId : Option Nat
  activeTabSource : Option AbstractTabSource
  previewTabId : Option Nat
  previewTabSource : Option AbstractTabSource
  tabsIndex : List (String × List (String × Nat))
  tabs : List (Nat × TabState)
  tabOrder : List Nat
  version : Nat
deriving DecidableEq, Repr

/-- `initialState` of the store. -/
def initialState : TabServiceState :=
  { tabIdSequence := 0
    activeTabId := none
    activeTabSource := none
    previewTabId := none
    previewTabSource := none
    tabsIndex := []
    tabs := []
    tabOrder := []
    version := 0 }

/-- `getTabIdBySource(sourceId, sourceName)`. -/
def getTabIdBySource (s : TabServiceState) (sourceId sourceName : String) : Option Nat :=
  (jsMapGet s.tabsIndex sourceName).bind (fun sm => jsMapGet sm sourceId)

/-- `setActiveTab(id)`: if the id resolves in the tab map, set it active
and surface its source; otherwise clear the active state. -/
def setActiveTab (s : TabServiceState) (id : Option Nat) : TabServiceState :=
  match id.bind (jsMapGet s.tabs) with
  | some ts => { s with activeTabId := id, activeTabSource := some ts.source }
  | none => { s with activeTabId := none, activeTabSource := none }

/-- `setPreviewTab(id)`: designate the tab as the preview slot when it
exists, else `resetPreviewTab`. -/
def setPreviewTab (s : TabServiceState) (id : Nat) : TabServiceState :=
  match jsMapGet s.tabs id with
  | some ts => { s with previewTabId := some id, previewTabSource := some ts.source }
  | none => { s with previewTabId := none, previewTabSource := none }

/-- `_generateNewTabId()`: increment the sequence and return the new id. -/
def _generateNewTabId (s : TabServiceState) : Nat × TabServiceState :=
  (s.tabIdSequence + 1, { s with tabIdSequence := s.tabIdSequence + 1 })

/-- `upsertTabSource(tabId, source, config)`: guard `if (!tabId) return`,
then create the tab store, index the source, store the tab, append the id
to the order when absent, and activate the tab.  `config` is the optional
`{ preview }` configuration, carried as its `preview` field. -/
def upsertTabSource (s : TabServiceState) (tabId : Option Nat)
    (source : AbstractTabSource) (config : Option Bool) : TabServiceState :=
  match tabId with
  | none => s
  | some tid =>
    if tid = 0 then s
    else
      let tab := createTabStore tid source source.defaultTitle config
      let tabsIndex :=
        match jsMapGet s.tabsIndex source.sourceName with
        | some sm => jsMapSet s.tabsIndex source.sourceName (jsMapSet sm source.sourceId tid)
        | none => jsMapSet s.tabsIndex source.sourceName [(source.sourceId, tid)]
      let tabs := jsMapSet s.tabs tid tab
      let newTabOrder := if tid ∈ s.tabOrder then s.tabOrder else s.tabOrder ++ [tid]
      setActiveTab { s with tabsIndex := tabsIndex, tabs := tabs, tabOrder := newTabOrder }
        (some tid)

/-- `tabsIndex.get(name)?.delete(id)` as used by the preview-eviction step
of `openTab`. -/
def deleteIndexEntry (idx : List (String × List (String × Nat)))
    (name id : String) : List (String × List (String × Nat)) :=
  match jsMapGet idx name with
  | some sm => jsMapSet idx name (jsMapDelete sm id)
  | none => idx

/-- The preview-eviction step of `openTab`: when a truthy preview tab id
and a preview source are present, delete the old preview source entry from
the index; otherwise leave the state alone. -/
def openTabPreviewBase (s : TabServiceState) : TabServiceState :=
  if truthyId s.previewTabId && s.previewTabSource.isSome then
    match s.previewTabSource with
    | some oldSource =>
      { s with tabsIndex := (deleteIndexEntry s.tabsIndex
          oldSource.sourceName oldSource.sourceId) }
    | none => s
  else s

/-- `openTab(source, config)`: activate the existing tab when the source is
already indexed (truthy id); otherwise, on a preview request, evict the old
preview index entry, reuse the preview slot id (or generate a fresh one)
and mark the new tab the preview; otherwise create a plain new tab. -/
def openTab (s : TabServiceState) (source : AbstractTabSource)
    (config : Option Bool) : TabServiceState :=
  let existingTabId := getTabIdBySource s source.sourceId source.sourceName
  if truthyId existingTabId then
    setActiveTab s existingTabId
  else if config.getD false then
    let s1 := openTabPreviewBase s
    let idAndState :=
      match s1.previewTabId with
      | some p => (p, s1)
      | none => _generateNewTabId s1
    let s2 := upsertTabSource idAndState.2 (some idAndState.1) source (some true)
    setPreviewTab s2 idAndState.1
  else
    let idAndState := _generateNewTabId s
    upsertTabSource idAndState.2 (some idAndState.1) source none

/-- Observable invocations of the registered blocker callbacks during
`closeTabById` (the `onCancel` / `onConfirm` calls of the close flow). -/
inductive CloseEvent where
  | onCancel : CloseEvent
  | onConfirm : CloseEvent
deriving DecidableEq, Repr

/-- The source-index update of `closeTabById`: delete the (name, id) entry,
then drop the name bucket when it became empty. -/
def closeIndexUpdate (idx : List (String × List (String × Nat)))
    (sourceName sourceId : String) : List (String × List (String × Nat)) :=
  let idx1 :=
    match jsMapGet idx sourceName with
    | some sm => jsMapSet idx sourceName (jsMapDelete sm sourceId)
    | none => idx
  match jsMapGet idx1 sourceName with
  | some sm => if sm.length = 0 then jsMapDelete idx1 sourceName else idx1
  | none => idx1

/-- The replacement active tab computed by `closeTabById`: unchanged when
the closed tab was not active; otherwise the id at the old index in the
filtered order, falling back to the one before, or none when the order
became empty. -/
def closeNewActive (activeTabId : Option Nat) (tabOrder : List Nat)
    (tabId : Nat) : Option Nat :=
  let newTabOrder := tabOrder.filter (fun id => id != tabId)
  if activeTabId ≠ some tabId then activeTabId
  else if newTabOrder.length = 0 then none
  else
    let currentIndex := jsIndexOf tabOrder tabId
    let nextIndex := if currentIndex < (newTabOrder.length : Int) then currentIndex
      else currentIndex - 1
    if nextIndex ≥ 0 then newTabOrder[nextIndex.toNat]? else none

/-- `closeTabById(tabId, skipUnsavedPrompt)`.  The `window.confirm` answer
is the explicit `userConfirms` argument; the returned list records which
blocker callbacks were invoked.  On a prompted cancel the state is returned
untouched; otherwise the source index entry is removed (and its name bucket
dropped when emptied), the id is filtered out of the order, a replacement
active tab is computed when the closed tab was active, and the tab is
deleted. -/
def closeTabById (s : TabServiceState) (tabId : Nat) (skipUnsavedPrompt : Bool)
    (userConfirms : Bool) : TabServiceState × List CloseEvent :=
  match jsMapGet s.tabs tabId with
  | none => (s, [])
  | some tabState =>
    let prompted := !skipUnsavedPrompt && (tabState.activeBlocker || tabState.unsaved)
    if prompted && !userConfirms then
      (s, if tabState.activeBlocker then [CloseEvent.onCancel] else [])
    else
      let events :=
        if prompted && tabState.activeBlocker then [CloseEvent.onConfirm] else []
      let s1 := { s with
        tabsIndex := closeIndexUpdate s.tabsIndex tabState.source.sourceName
          tabState.source.sourceId
        tabs := jsMapDelete s.tabs tabId
        tabOrder := s.tabOrder.filter (fun id => id != tabId) }
      (setActiveTab s1 (closeNewActive s.activeTabId s.tabOrder tabId), events)

/-- The partial updates accepted by `updateTabBySource` (this store version
applies the `title`, `preview` and `icon` fields). -/
structure TabUpdates where
  title : Option String
  preview : Option Bool
  icon : Option String
deriving DecidableEq, Repr

/-- `updateTabBySource(sourceId, sourceName, updates)`: resolve the tab via
the index (truthy guard), then overwrite title, preview flag and icon with
the updates, defaulting each to the current value, and bump the version. -/
def updateTabBySource (s : TabServiceState) (sourceId sourceName : String)
    (updates : TabUpdates) : TabServiceState :=
  match getTabIdBySource s sourceId sourceName with
  | none => s
  | some tid =>
    if tid = 0 then s
    else
      match jsMapGet s.tabs tid with
      | none => s
      | some ts =>
        let ts1 := { ts with
          title := updates.title.getD ts.title
          preview := updates.preview.getD ts.preview
          icon := match updates.icon with | some i => some i | none => ts.icon }
        { s with tabs := jsMapSet s.tabs tid ts1, version := s.version + 1 }

/-- `updateTabOrder(newOrder)`: replace the order wholesale. -/
def updateTabOrder (s : TabServiceState) (newOrder : List Nat) : TabServiceState :=
  { s with tabOrder := newOrder, version := s.version + 1 }

/-- Operations of the registry used to form operation sequences. -/
inductive TabOp where
  | openT : AbstractTabSource → Option Bool → TabOp
  | closeT : Nat → Bool → Bool → TabOp
  | updateT : String → String → TabUpdates → TabOp
  | setPreviewT : Nat → TabOp
deriving DecidableEq, Repr

/-- Apply one registry operation. -/
def applyOp (s : TabServiceState) : TabOp → TabServiceState
  | TabOp.openT source config => openTab s source config
  | TabOp.closeT tabId skip confirm => (closeTabById s tabId skip confirm).1
  | TabOp.updateT sourceId sourceName updates => updateTabBySource s sourceId sourceName updates
  | TabOp.setPreviewT tabId => setPreviewTab s tabId

/-- Run a sequence of registry operations from the initial state. -/
def runOps (ops : List TabOp) : TabServiceState :=
  ops.foldl applyOp initialState

/-- Number of tabs whose preview flag is set. -/
def previewCount (s : TabServiceState) : Nat :=
  (s.tabs.filter (fun p => p.2.preview)).length

/-- Modelled from the spec: the source snapshot inside the persisted
format carries the declared source kind (its stored "type") and the
metadata from which the source-kind to constructor registry
(`TAB_SOURCES_MAP`, not under src/) rebuilds the source. -/
structure PersistedSource where
  type : String
  sourceName : String
  sourceId : String
  defaultTitle : String
deriving DecidableEq, Repr

/-- A persisted tab snapshot, the serialized `tabStore.getState()`. -/
structure PersistedTabState where
  source : PersistedSource
  title : String
  preview : Bool
  unsaved : Bool
deriving DecidableEq, Repr

/-- A successfully parsed persisted value, the `existingValue.state` that
`storage.getItem` reconstructs from. -/
structure PersistedState where
  tabIdSequence : Nat
  activeTabId : Option Nat
  tabsIndex : List (String × List (String × Nat))
  tabs : List (Nat × PersistedTabState)
  tabOrder : Option (List Nat)
  version : Nat
deriving DecidableEq, Repr

/-- Modelled from the spec: `new TAB_SOURCES_MAP[tabState.source.type](metadata)`
rebuilds a source of the declared kind from its stored metadata. -/
def mkSource (ps : PersistedSource) : AbstractTabSource :=
  { sourceName := ps.sourceName, sourceId := ps.sourceId, defaultTitle := ps.defaultTitle }

/-- The tab map rebuilt by `getItem`: each stored snapshot becomes a fresh
store via `createTabStore(tabId, source, tabState.title)` (no preview
argument is passed), collected with `Map` semantics. -/
def reconstructTabs (ps : PersistedState) : List (Nat × TabState) :=
  ps.tabs.foldl
    (fun m p => jsMapSet m p.1 (createTabStore p.1 (mkSource p.2.source) p.2.title none)) []

/-- The self-healing tab order of `getItem`: the stored order filtered to
reconstructed ids, then the reconstructed ids missing from it appended. -/
def getItemTabOrder (ps : PersistedState) : List Nat :=
  let tabs := reconstructTabs ps
  let validTabIds := jsMapKeys tabs
  let storedTabOrder := ps.tabOrder.getD []
  let validTabOrder := storedTabOrder.filter (fun id => decide (id ∈ validTabIds))
  let missingTabs := validTabIds.filter (fun id => decide (id ∉ validTabOrder))
  validTabOrder ++ missingTabs

/-- The store state produced by a successful `getItem` read: tabs, index,
active source and order are replaced; the fields absent from the persisted
partial state (the preview slot among them) keep their initial values when
the persist middleware merges the result. -/
def getItemState (ps : PersistedState) : TabServiceState :=
  let tabs := reconstructTabs ps
  { tabIdSequence := ps.tabIdSequence
    activeTabId := ps.activeTabId
    activeTabSource :=
      if truthyId ps.activeTabId then
        (ps.activeTabId.bind (jsMapGet tabs)).map (fun ts => ts.source)
      else none
    previewTabId := none
    previewTabSource := none
    tabsIndex := ps.tabsIndex
    tabs := tabs
    tabOrder := getItemTabOrder ps
    version := ps.version }

/-- `storage.setItem`: the body serializes the state and writes it; either
step may fail (they are the `serialized` and `store` arguments) and the
surrounding try/catch rethrows any failure wrapped in a new error. -/
def setItem (serialized : Except String String)
    (store : String → Except String Unit) : Except String Unit :=
  match serialized.bind store with
  | Except.ok u => Except.ok u
  | Except.error e => Except.error ("Tab service setItem failed - error: " ++ e)

/-- `storage.getItem`: an absent stored string returns null; a parse or
reconstruction failure of the body (the `parse` argument) is rethrown
wrapped; a successful parse returns the reconstructed state. -/
def getItem (raw : Option String)
    (parse : String → Except String PersistedState) :
    Except String (Option TabServiceState) :=
  match raw with
  | none => Except.ok none
  | some str =>
    match parse str with
    | Except.ok ps => Except.ok (some (getItemState ps))
    | Except.error e => Except.error ("Tab service getItem failed - error: " ++ e)

/-- Modelled from the spec: the persist middleware rehydration reports a
failed read (via `onRehydrateStorage`, which logs it to telemetry) and
falls back to the initial registry state instead of crashing; the flag
records whether a failure was reported. -/
def rehydrateResult (read : Except String (Option TabServiceState)) :
    TabServiceState × Bool :=
  match read with
  | Except.error _ => (initialState, true)
  | Except.ok none => (initialState, false)
  | Except.ok (some st) => (st, false)

/-- The registry invariant named by the spec: the tab order lists exactly
the keys of the tab map, without duplicates. -/
def ordKeys (s : TabServiceState) : Prop :=
  s.tabOrder.Nodup ∧ ∀ id, id ∈ s.tabOrder ↔ id ∈ jsMapKeys s.tabs

def srcA : AbstractTabSource := { sourceName := "n", sourceId := "a", defaultTitle := "A" }

def srcB : AbstractTabSource := { sourceName := "n", sourceId := "b", defaultTitle := "B" }

def srcC : AbstractTabSource := { sourceName := "n", sourceId := "c", defaultTitle := "C" }

/-- A registry holding the single tab obtained by opening `srcA`. -/
def stateOneTab : TabServiceState := runOps [TabOp.openT srcA none]

/-- A tab with unsaved changes and a registered close blocker. -/
def tabBlocked : TabState :=
  { id := 1, source := srcA, title := "A", icon := none, preview := false,
    unsaved := true, closable := true, activeBlocker := true }

/-- A one-tab registry whose single tab is blocked and unsaved. -/
def stateBlocked : TabServiceState :=
  { tabIdSequence := 1, activeTabId := some 1, activeTabSource := some srcA,
    previewTabId := none, previewTabSource := none,
    tabsIndex := [("n", [("a", 1)])], tabs := [(1, tabBlocked)],
    tabOrder := [1], version := 0 }

def psrcA : PersistedSource :=
  { type := "request", sourceName := "n", sourceId := "a", defaultTitle := "A" }

def psrcB : PersistedSource :=
  { type := "request", sourceName := "n", sourceId := "b", defaultTitle := "B" }

/-- A persisted snapshot holding a preview and unsaved tab, a stale id in
the stored order, and a reconstructed id missing from the stored order. -/
def persistedW : PersistedState :=
  { tabIdSequence := 5
    activeTabId := some 2
    tabsIndex := [("n", [("a", 1), ("b", 2)])]
    tabs := [(1, { source := psrcA, title := "A", preview := true, unsaved := true }),
             (2, { source := psrcB, title := "B", preview := false, unsaved := false })]
    tabOrder := some [9, 2]
    version := 3 }

/-- All ids recorded in the registry are bounded by the id sequence: tab
map keys and the preview slot id never exceed it. -/
def idsBounded (s : TabServiceState) : Prop :=
  (∀ id ∈ jsMapKeys s.tabs, id ≤ s.tabIdSequence) ∧
  (∀ p, s.previewTabId = some p → p ≤ s.tabIdSequence)

/-- Tab keys are unique and every preview-flagged tab is the tab designated
by the preview slot. -/
def previewFlagInv (s : TabServiceState) : Prop :=
  (jsMapKeys s.tabs).Nodup ∧
  ∀ q ∈ s.tabs, (q : Nat × TabState).2.preview = true → s.previewTabId = some q.1

/-- Operations that only open or close tabs. -/
def isOpenOrClose : TabOp → Prop
  | TabOp.openT _ _ => True
  | TabOp.closeT _ _ _ => True
  | _ => False

theorem jsMapGet_set_self {κ α : Type} [DecidableEq κ] (m : List (κ × α)) (k : κ) (v : α) :
    jsMapGet (jsMapSet m k v) k = some v := by
  induction m with
  | nil => simp [jsMapSet, jsMapGet]
  | cons p rest ih =>
    by_cases h : p.1 = k
    · simp [jsMapSet, jsMapGet, h]
    · simp [jsMapSet, jsMapGet, h, ih]

theorem jsMapGet_set_ne {κ α : Type} [DecidableEq κ] (m : List (κ × α)) (k k' : κ) (v : α)
    (h : k' ≠ k) : jsMapGet (jsMapSet m k v) k' = jsMapGet m k' := by
  have hks : k ≠ k' := Ne.symm h
  induction m with
  | nil => simp [jsMapSet, jsMapGet, hks]
  | cons p rest ih =>
    by_cases hp : p.1 = k
    · subst hp
      simp [jsMapSet, jsMapGet, hks]
    · simp only [jsMapSet, if_neg hp]
      by_cases hp' : p.1 = k'
      · simp [jsMapGet, hp']
      · simp [jsMapGet, hp', ih]

theorem jsMapGet_delete_self {κ α : Type} [DecidableEq κ] (m : List (κ × α)) (k : κ) :
    jsMapGet (jsMapDelete m k) k = none := by
  induction m with
  | nil => simp [jsMapDelete, jsMapGet]
  | cons p rest ih =>
    by_cases h : p.1 = k
    · simp [jsMapDelete, h, ih]
    · simp [jsMapDelete, jsMapGet, h, ih]

theorem jsMapGet_delete_ne {κ α : Type} [DecidableEq κ] (m : List (κ × α)) (k k' : κ)
    (h : k' ≠ k) : jsMapGet (jsMapDelete m k) k' = jsMapGet m k' := by
  have hks : k ≠ k' := Ne.symm h
  induction m with
  | nil => simp [jsMapDelete]
  | cons p rest ih =>
    by_cases hp : p.1 = k
    · have hne : p.1 ≠ k' := by rw [hp]; exact hks
      simp [jsMapDelete, jsMapGet, hp, hne, hks, ih]
    · by_cases hp' : p.1 = k'
      · simp [jsMapDelete, jsMapGet, hp, hp', h]
      · simp [jsMapDelete, jsMapGet, hp, hp', h, ih]

theorem jsMapKeys_delete {κ α : Type} [DecidableEq κ] (m : List (κ × α)) (k : κ) :
    jsMapKeys (jsMapDelete m k) = (jsMapKeys m).filter (fun x => x != k) := by
  induction m with
  | nil => simp [jsMapDelete, jsMapKeys]
  | cons p rest ih =>
    simp only [jsMapKeys] at ih ⊢
    by_cases h : p.1 = k
    · simp [jsMapDelete, h, ih, List.filter_cons]
    · simp [jsMapDelete, h, ih, List.filter_cons]

theorem mem_jsMapKeys_iff {κ α : Type} [DecidableEq κ] (m : List (κ × α)) (k : κ) :
    k ∈ jsMapKeys m ↔ ∃ v, (k, v) ∈ m := by
  induction m with
  | nil => simp [jsMapKeys]
  | cons p rest ih =>
    simp only [jsMapKeys, List.map_cons, List.mem_cons] at ih ⊢
    constructor
    · rintro (h | h)
      · exact ⟨p.2, Or.inl (by rw [h])⟩
      · obtain ⟨v, hv⟩ := ih.mp h
        exact ⟨v, Or.inr hv⟩
    · rintro ⟨v, h | h⟩
      · left
        rw [← h]
      · right
        exact ih.mpr ⟨v, h⟩

theorem mem_jsMapKeys_set {κ α : Type} [DecidableEq κ] (m : List (κ × α)) (k k' : κ) (v : α) :
    k' ∈ jsMapKeys (jsMapSet m k v) ↔ k' ∈ jsMapKeys m ∨ k' = k := by
  induction m with
  | nil => simp [jsMapSet, jsMapKeys]
  | cons p rest ih =>
    by_cases h : p.1 = k
    · simp only [jsMapSet, if_pos h, jsMapKeys, List.map_cons, List.mem_cons]
      rw [h]
      tauto
    · simp only [jsMapSet, if_neg h, jsMapKeys, List.map_cons, List.mem_cons]
      simp only [jsMapKeys] at ih
      rw [ih]
      tauto

theorem jsMapKeys_set_of_mem {κ α : Type} [DecidableEq κ] (m : List (κ × α)) (k : κ) (v : α)
    (h : k ∈ jsMapKeys m) : jsMapKeys (jsMapSet m k v) = jsMapKeys m := by
  induction m with
  | nil => simp [jsMapKeys] at h
  | cons p rest ih =>
    simp only [jsMapKeys] at ih
    by_cases hp : p.1 = k
    · simp [jsMapSet, jsMapKeys, hp]
    · simp only [jsMapKeys, List.map_cons, List.mem_cons] at h
      rcases h with h | h
      · exact absurd h.symm hp
      · simp [jsMapSet, jsMapKeys, hp, ih h]

theorem jsMapKeys_set_of_not_mem {κ α : Type} [DecidableEq κ] (m : List (κ × α)) (k : κ) (v : α)
    (h : k ∉ jsMapKeys m) : jsMapKeys (jsMapSet m k v) = jsMapKeys m ++ [k] := by
  induction m with
  | nil => simp [jsMapSet, jsMapKeys]
  | cons p rest ih =>
    simp only [jsMapKeys] at ih
    simp only [jsMapKeys, List.map_cons, List.mem_cons] at h
    push_neg at h
    have hp : p.1 ≠ k := fun hh => h.1 hh.symm
    simp [jsMapSet, jsMapKeys, hp, ih h.2]

theorem nodup_jsMapKeys_set {κ α : Type} [DecidableEq κ] (m : List (κ × α)) (k : κ) (v : α)
    (h : (jsMapKeys m).Nodup) : (jsMapKeys (jsMapSet m k v)).Nodup := by
  by_cases hk : k ∈ jsMapKeys m
  · rw [jsMapKeys_set_of_mem m k v hk]
    exact h
  · rw [jsMapKeys_set_of_not_mem m k v hk]
    simp [List.nodup_append, h, hk]

theorem nodup_jsMapKeys_delete {κ α : Type} [DecidableEq κ] (m : List (κ × α)) (k : κ)
    (h : (jsMapKeys m).Nodup) : (jsMapKeys (jsMapDelete m k)).Nodup := by
  rw [jsMapKeys_delete]
  exact h.filter _

theorem jsMapGet_isSome_iff_mem_keys {κ α : Type} [DecidableEq κ] (m : List (κ × α)) (k : κ) :
    (jsMapGet m k).isSome = true ↔ k ∈ jsMapKeys m := by
  induction m with
  | nil => simp [jsMapGet, jsMapKeys]
  | cons p rest ih =>
    by_cases h : p.1 = k
    · simp [jsMapGet, jsMapKeys, h]
    · have hne : k ≠ p.1 := fun hh => h hh.symm
      simp [jsMapGet, jsMapKeys, h, ih, hne]

theorem jsMapGet_eq_some_mem {κ α : Type} [DecidableEq κ] (m : List (κ × α)) (k : κ) (v : α)
    (h : jsMapGet m k = some v) : (k, v) ∈ m := by
  induction m with
  | nil => simp [jsMapGet] at h
  | cons p rest ih =>
    by_cases hp : p.1 = k
    · simp only [jsMapGet, if_pos hp, Option.some.injEq] at h
      have : p = (k, v) := Prod.ext hp h
      rw [← this]
      exact List.mem_cons_self p rest
    · simp only [jsMapGet, if_neg hp] at h
      exact List.mem_cons_of_mem p (ih h)

theorem jsMapGet_none_of_not_mem_keys {κ α : Type} [DecidableEq κ] (m : List (κ × α)) (k : κ)
    (h : k ∉ jsMapKeys m) : jsMapGet m k = none := by
  cases hg : jsMapGet m k with
  | none => rfl
  | some v =>
    exact absurd ((jsMapGet_isSome_iff_mem_keys m k).mp (by simp [hg])) h

/-- C1: for every state and every source whose (sourceName, sourceId) pair
is already present in the source index (resolving, as index entries of
reachable states do, to an existing tab with a nonzero id), `openTab` only
sets the existing tab active: tabs, tabsIndex, tabOrder, tabIdSequence,
previewTabId and previewTabSource are unchanged, no new tab is created,
and activeTabId becomes the existing tab id. -/
theorem openTab_existing_only_activates (s : TabServiceState)
    (source : AbstractTabSource) (config : Option Bool) (t : Nat) (ts : TabState)
    (hfind : getTabIdBySource s source.sourceId source.sourceName = some t)
    (ht : t ≠ 0)
    (htab : jsMapGet s.tabs t = some ts) :
    (openTab s source config).tabs = s.tabs ∧
    (openTab s source config).tabsIndex = s.tabsIndex ∧
    (openTab s source config).tabOrder = s.tabOrder ∧
    (openTab s source config).tabIdSequence = s.tabIdSequence ∧
    (openTab s source config).previewTabId = s.previewTabId ∧
    (openTab s source config).previewTabSource = s.previewTabSource ∧
    (openTab s source config).activeTabId = some t := by
  have hopen : openTab s source config = setActiveTab s (some t) := by
    simp [openTab, hfind, truthyId, ht]
  rw [hopen]
  simp [setActiveTab, htab]

theorem openTab_existing_only_activates_witness :
    getTabIdBySource stateOneTab srcA.sourceId srcA.sourceName = some 1 ∧
    jsMapGet stateOneTab.tabs 1 = some (createTabStore 1 srcA "A" none) ∧
    (openTab stateOneTab srcA none).tabs = stateOneTab.tabs ∧
    (openTab stateOneTab srcA none).tabOrder = stateOneTab.tabOrder ∧
    (openTab stateOneTab srcA none).activeTabId = some 1 := by
  have h := openTab_existing_only_activates stateOneTab srcA none 1
    (createTabStore 1 srcA "A" none) (by decide) (by decide) (by decide)
  exact ⟨by decide, by decide, h.1, h.2.2.1, h.2.2.2.2.2.2⟩

/-- C7: closing a tab that has an active blocker or the unsaved flag,
without skipUnsavedPrompt, when the user cancels the confirmation prompt,
invokes the blocker onCancel callback (when a blocker is registered) and
leaves the whole registry state unchanged. -/
theorem closeTabById_cancel_aborts (s : TabServiceState) (tabId : Nat)
    (ts : TabState)
    (htab : jsMapGet s.tabs tabId = some ts)
    (hblk : ts.activeBlocker = true ∨ ts.unsaved = true) :
    (closeTabById s tabId false false).1 = s ∧
    (ts.activeBlocker = true →
      (closeTabById s tabId false false).2 = [CloseEvent.onCancel]) := by
  have hcond : (ts.activeBlocker || ts.unsaved) = true := by
    rcases hblk with h | h <;> simp [h]
  constructor
  · simp [closeTabById, htab, hcond]
  · intro hb
    simp [closeTabById, htab, hcond, hb]

theorem closeTabById_cancel_aborts_witness :
    jsMapGet stateBlocked.tabs 1 = some tabBlocked ∧
    tabBlocked.activeBlocker = true ∧
    (closeTabById stateBlocked 1 false false).1 = stateBlocked ∧
    (closeTabById stateBlocked 1 false false).2 = [CloseEvent.onCancel] := by
  have h := closeTabById_cancel_aborts stateBlocked 1 tabBlocked (by decide)
    (Or.inl (by decide))
  exact ⟨by decide, by decide, h.1, h.2 (by decide)⟩

/-- C9: a failing serialization or store write makes `setItem` throw a
wrapped error to its caller; a stored string whose parse or reconstruction
fails makes `getItem` throw rather than return a partial state; and
rehydration from a failed read reports the failure and yields the initial
registry state instead of crashing. -/
theorem persistence_failures_do_not_corrupt :
    (∀ (e : String) (store : String → Except String Unit),
      setItem (Except.error e) store =
        Except.error ("Tab service setItem failed - error: " ++ e)) ∧
    (∀ (str : String) (stored : String),
      setItem (Except.ok stored) (fun _ => Except.error str) =
        Except.error ("Tab service setItem failed - error: " ++ str)) ∧
    (∀ (str e : String) (parse : String → Except String PersistedState),
      parse str = Except.error e →
      getItem (some str) parse =
        Except.error ("Tab service getItem failed - error: " ++ e)) ∧
    (∀ (e : String),
      rehydrateResult (Except.error e) = (initialState, true)) := by
  refine ⟨?_, ?_, ?_, ?_⟩
  · intro e store
    simp [setItem, Except.bind]
  · intro str stored
    simp [setItem, Except.bind]
  · intro str e parse hp
    simp [getItem, hp]
  · intro e
    simp [rehydrateResult]

theorem persistence_failures_do_not_corrupt_witness :
    (fun (_ : String) => (Except.error "boom" : Except String PersistedState)) "x" =
      Except.error "boom" ∧
    getItem (some "x") (fun _ => Except.error "boom") =
      Except.error ("Tab service getItem failed - error: " ++ "boom") := by
  exact ⟨rfl, persistence_failures_do_not_corrupt.2.2.1 "x" "boom"
    (fun _ => Except.error "boom") rfl⟩

/-- C10: every tab reconstructed by `getItem` is created without the
persisted preview and unsaved flags, so after rehydration every tab is
non-preview and non-unsaved regardless of what was persisted. -/
theorem getItem_drops_preview_and_unsaved (ps : PersistedState) (id : Nat)
    (ts : TabState)
    (h : jsMapGet (getItemState ps).tabs id = some ts) :
    ts.preview = false ∧ ts.unsaved = false := by
  have hmem : (id, ts) ∈ reconstructTabs ps := jsMapGet_eq_some_mem _ _ _ h
  suffices hall : ∀ q ∈ reconstructTabs ps, (q : Nat × TabState).2.preview = false ∧
      q.2.unsaved = false by
    exact hall (id, ts) hmem
  unfold reconstructTabs
  generalize hacc : ([] : List (Nat × TabState)) = acc
  have haccP : ∀ q ∈ acc, (q : Nat × TabState).2.preview = false ∧ q.2.unsaved = false := by
    rw [← hacc]
    intro q hq
    simp at hq
  clear hacc hmem h
  induction ps.tabs generalizing acc with
  | nil => exact haccP
  | cons p rest ih =>
    simp only [List.foldl_cons]
    apply ih
    intro q hq
    have : q ∈ acc ∨ q = (p.1, createTabStore p.1 (mkSource p.2.source) p.2.title none) := by
      clear ih haccP
      induction acc with
      | nil =>
        simp [jsMapSet] at hq
        right
        rw [hq]
      | cons a arest aih =>
        by_cases ha : a.1 = p.1
        · simp only [jsMapSet, if_pos ha] at hq
          rcases List.mem_cons.mp hq with hq1 | hq1
          · right
            rw [hq1]
          · left
            exact List.mem_cons_of_mem a hq1
        · simp only [jsMapSet, if_neg ha] at hq
          rcases List.mem_cons.mp hq with hq1 | hq1
          · left
            rw [hq1]
            exact List.mem_cons_self a arest
          · rcases aih hq1 with h | h
            · left
              exact List.mem_cons_of_mem a h
            · right
              exact h
    rcases this with h | h
    · exact haccP q h
    · rw [h]
      simp [createTabStore]

theorem getItem_drops_preview_and_unsaved_witness :
    jsMapGet (getItemState persistedW).tabs 1 =
      some (createTabStore 1 (mkSource psrcA) "A" none) ∧
    (createTabStore 1 (mkSource psrcA) "A" none).preview = false ∧
    (createTabStore 1 (mkSource psrcA) "A" none).unsaved = false := by
  refine ⟨by decide, ?_⟩
  exact getItem_drops_preview_and_unsaved persistedW 1 _ (by decide)

theorem setActiveTab_frame (s : TabServiceState) (id : Option Nat) :
    (setActiveTab s id).tabs = s.tabs ∧
    (setActiveTab s id).tabsIndex = s.tabsIndex ∧
    (setActiveTab s id).tabOrder = s.tabOrder ∧
    (setActiveTab s id).tabIdSequence = s.tabIdSequence ∧
    (setActiveTab s id).previewTabId = s.previewTabId ∧
    (setActiveTab s id).previewTabSource = s.previewTabSource := by
  unfold setActiveTab
  cases id.bind (jsMapGet s.tabs) <;> simp

theorem setPreviewTab_frame (s : TabServiceState) (id : Nat) :
    (setPreviewTab s id).tabs = s.tabs ∧
    (setPreviewTab s id).tabsIndex = s.tabsIndex ∧
    (setPreviewTab s id).tabOrder = s.tabOrder ∧
    (setPreviewTab s id).tabIdSequence = s.tabIdSequence ∧
    (setPreviewTab s id).activeTabId = s.activeTabId := by
  unfold setPreviewTab
  cases jsMapGet s.tabs id <;> simp

theorem upsertTabSource_eq (s : TabServiceState) (tid : Nat) (source : AbstractTabSource)
    (config : Option Bool) (h0 : tid ≠ 0) :
    upsertTabSource s (some tid) source config =
      setActiveTab { s with
        tabsIndex :=
          match jsMapGet s.tabsIndex source.sourceName with
          | some sm => jsMapSet s.tabsIndex source.sourceName (jsMapSet sm source.sourceId tid)
          | none => jsMapSet s.tabsIndex source.sourceName [(source.sourceId, tid)]
        tabs := jsMapSet s.tabs tid (createTabStore tid source source.defaultTitle config)
        tabOrder := if tid ∈ s.tabOrder then s.tabOrder else s.tabOrder ++ [tid] }
        (some tid) := by
  simp [upsertTabSource, h0]

/-- C5: for every successfully parsed persisted state, the reconstructed
tab order is the stored order restricted to reconstructed tab ids (stale
ids dropped) followed by the reconstructed ids missing from the stored
order, and it contains exactly the keys of the reconstructed tab map. -/
theorem getItem_tabOrder_self_healing (ps : PersistedState) :
    ((getItemState ps).tabOrder =
      (ps.tabOrder.getD []).filter
          (fun id => decide (id ∈ jsMapKeys (reconstructTabs ps))) ++
        (jsMapKeys (reconstructTabs ps)).filter
          (fun id => decide (id ∉ (ps.tabOrder.getD []).filter
            (fun i => decide (i ∈ jsMapKeys (reconstructTabs ps)))))) ∧
    (∀ id, id ∈ (getItemState ps).tabOrder ↔ id ∈ jsMapKeys (getItemState ps).tabs) := by
  constructor
  · rfl
  · intro id
    show id ∈ getItemTabOrder ps ↔ id ∈ jsMapKeys (reconstructTabs ps)
    unfold getItemTabOrder
    simp only [List.mem_append, List.mem_filter, decide_eq_true_eq]
    constructor
    · rintro (⟨_, hk⟩ | ⟨hk, _⟩) <;> exact hk
    · intro hk
      by_cases hv : id ∈ (ps.tabOrder.getD []).filter
          (fun i => decide (i ∈ jsMapKeys (reconstructTabs ps)))
      · left
        exact ⟨(List.mem_filter.mp hv).1, hk⟩
      · right
        refine ⟨hk, ?_⟩
        intro hx
        exact hv (List.mem_filter.mpr ⟨hx.1, by simpa using hx.2⟩)

/-- C3: opening a new, not-yet-indexed source with a preview config while a
preview tab exists (nonzero id, source known) reuses the preview tab id for
the new tab, leaves the id sequence unchanged, and deletes the old preview
source entry from the source index. -/
theorem openTab_preview_replaces_in_place (s : TabServiceState)
    (source oldSource : AbstractTabSource) (p : Nat)
    (hidx : getTabIdBySource s source.sourceId source.sourceName = none)
    (hp : s.previewTabId = some p) (hp0 : p ≠ 0)
    (hps : s.previewTabSource = some oldSource)
    (hne : oldSource.sourceName ≠ source.sourceName ∨
      oldSource.sourceId ≠ source.sourceId) :
    (openTab s source (some true)).tabIdSequence = s.tabIdSequence ∧
    jsMapGet (openTab s source (some true)).tabs p =
      some (createTabStore p source source.defaultTitle (some true)) ∧
    getTabIdBySource (openTab s source (some true))
      oldSource.sourceId oldSource.sourceName = none := by
  have hopen : openTab s source (some true) =
      setPreviewTab (upsertTabSource
        { s with tabsIndex := (deleteIndexEntry s.tabsIndex
            oldSource.sourceName oldSource.sourceId) }
        (some p) source (some true)) p := by
    simp [openTab, openTabPreviewBase, hidx, truthyId, hp, hps, hp0]
  rw [hopen, upsertTabSource_eq _ _ _ _ hp0]
  set s1 : TabServiceState :=
    { s with tabsIndex := (deleteIndexEntry s.tabsIndex
        oldSource.sourceName oldSource.sourceId) } with hs1
  set s2 : TabServiceState := { s1 with
    tabsIndex :=
      match jsMapGet s1.tabsIndex source.sourceName with
      | some sm => jsMapSet s1.tabsIndex source.sourceName (jsMapSet sm source.sourceId p)
      | none => jsMapSet s1.tabsIndex source.sourceName [(source.sourceId, p)]
    tabs := jsMapSet s1.tabs p (createTabStore p source source.defaultTitle (some true))
    tabOrder := if p ∈ s1.tabOrder then s1.tabOrder else s1.tabOrder ++ [p] } with hs2
  have hseq : (setPreviewTab (setActiveTab s2 (some p)) p).tabIdSequence =
      s2.tabIdSequence := by
    rw [(setPreviewTab_frame _ _).2.2.2.1, (setActiveTab_frame _ _).2.2.2.1]
  have htabs : (setPreviewTab (setActiveTab s2 (some p)) p).tabs = s2.tabs := by
    rw [(setPreviewTab_frame _ _).1, (setActiveTab_frame _ _).1]
  have hindex : (setPreviewTab (setActiveTab s2 (some p)) p).tabsIndex = s2.tabsIndex := by
    rw [(setPreviewTab_frame _ _).2.1, (setActiveTab_frame _ _).2.1]
  refine ⟨?_, ?_, ?_⟩
  · rw [hseq]
  · rw [htabs]
    show jsMapGet (jsMapSet s1.tabs p (createTabStore p source source.defaultTitle (some true))) p
      = some (createTabStore p source source.defaultTitle (some true))
    exact jsMapGet_set_self _ _ _
  · show getTabIdBySource (setPreviewTab (setActiveTab s2 (some p)) p)
      oldSource.sourceId oldSource.sourceName = none
    unfold getTabIdBySource
    rw [hindex]
    have hinner : ∀ sm, jsMapGet (deleteIndexEntry s.tabsIndex oldSource.sourceName
        oldSource.sourceId) oldSource.sourceName = some sm →
        jsMapGet sm oldSource.sourceId = none := by
      intro sm hsm
      unfold deleteIndexEntry at hsm
      cases hold : jsMapGet s.tabsIndex oldSource.sourceName with
      | some sm0 =>
        rw [hold] at hsm
        rw [jsMapGet_set_self] at hsm
        cases hsm
        exact jsMapGet_delete_self _ _
      | none =>
        rw [hold] at hsm
        rw [hold] at hsm
        cases hsm
    rcases hne with hnn | hni
    · have houter : jsMapGet s2.tabsIndex oldSource.sourceName =
          jsMapGet s1.tabsIndex oldSource.sourceName := by
        show jsMapGet (match jsMapGet s1.tabsIndex source.sourceName with
          | some sm => jsMapSet s1.tabsIndex source.sourceName (jsMapSet sm source.sourceId p)
          | none => jsMapSet s1.tabsIndex source.sourceName [(source.sourceId, p)])
          oldSource.sourceName = jsMapGet s1.tabsIndex oldSource.sourceName
        cases hm : jsMapGet s1.tabsIndex source.sourceName <;>
          simp [jsMapGet_set_ne _ _ _ _ hnn]
      rw [houter]
      cases hout : jsMapGet s1.tabsIndex oldSource.sourceName with
      | none => rfl
      | some sm =>
        have := hinner sm hout
        simp [this]
    · cases hm : jsMapGet s1.tabsIndex source.sourceName with
      | some sm =>
        have hs2idx : jsMapGet s2.tabsIndex oldSource.sourceName =
            if source.sourceName = oldSource.sourceName
            then some (jsMapSet sm source.sourceId p)
            else jsMapGet s1.tabsIndex oldSource.sourceName := by
          show jsMapGet (match jsMapGet s1.tabsIndex source.sourceName with
            | some sm => jsMapSet s1.tabsIndex source.sourceName (jsMapSet sm source.sourceId p)
            | none => jsMapSet s1.tabsIndex source.sourceName [(source.sourceId, p)])
            oldSource.sourceName = _
          rw [hm]
          by_cases heq : source.sourceName = oldSource.sourceName
          · rw [if_pos heq, heq, jsMapGet_set_self]
          · rw [if_neg heq, jsMapGet_set_ne _ _ _ _ (fun hh => heq hh.symm)]
        rw [hs2idx]
        by_cases heq : source.sourceName = oldSource.sourceName
        · rw [if_pos heq]
          have hm2 : jsMapGet s1.tabsIndex oldSource.sourceName = some sm := by
            rw [← heq]
            exact hm
          have hsm : jsMapGet sm oldSource.sourceId = none := hinner sm hm2
          simp [jsMapGet_set_ne _ _ _ _ hni, hsm]
        · rw [if_neg heq]
          cases hout : jsMapGet s1.tabsIndex oldSource.sourceName with
          | none => rfl
          | some sm2 =>
            have := hinner sm2 hout
            simp [this]
      | none =>
        have hs2idx : jsMapGet s2.tabsIndex oldSource.sourceName =
            if source.sourceName = oldSource.sourceName
            then some [(source.sourceId, p)]
            else jsMapGet s1.tabsIndex oldSource.sourceName := by
          show jsMapGet (match jsMapGet s1.tabsIndex source.sourceName with
            | some sm => jsMapSet s1.tabsIndex source.sourceName (jsMapSet sm source.sourceId p)
            | none => jsMapSet s1.tabsIndex source.sourceName [(source.sourceId, p)])
            oldSource.sourceName = _
          rw [hm]
          by_cases heq : source.sourceName = oldSource.sourceName
          · rw [if_pos heq, heq, jsMapGet_set_self]
          · rw [if_neg heq, jsMapGet_set_ne _ _ _ _ (fun hh => heq hh.symm)]
        rw [hs2idx]
        by_cases heq : source.sourceName = oldSource.sourceName
        · rw [if_pos heq]
          have : ¬source.sourceId = oldSource.sourceId := fun hh => hni hh.symm
          simp [jsMapGet, this]
        · rw [if_neg heq]
          cases hout : jsMapGet s1.tabsIndex oldSource.sourceName with
          | none => rfl
          | some sm2 =>
            have := hinner sm2 hout
            simp [this]

theorem openTab_preview_replaces_in_place_witness :
    (runOps [TabOp.openT srcA (some true)]).previewTabId = some 1 ∧
    getTabIdBySource (runOps [TabOp.openT srcA (some true)])
      srcB.sourceId srcB.sourceName = none ∧
    (openTab (runOps [TabOp.openT srcA (some true)]) srcB (some true)).tabIdSequence =
      (runOps [TabOp.openT srcA (some true)]).tabIdSequence ∧
    jsMapGet (openTab (runOps [TabOp.openT srcA (some true)]) srcB (some true)).tabs 1 =
      some (createTabStore 1 srcB srcB.defaultTitle (some true)) ∧
    getTabIdBySource (openTab (runOps [TabOp.openT srcA (some true)]) srcB (some true))
      srcA.sourceId srcA.sourceName = none := by
  have h := openTab_preview_replaces_in_place (runOps [TabOp.openT srcA (some true)])
    srcB srcA 1 (by decide) (by decide) (by decide) (by decide) (Or.inr (by decide))
  exact ⟨by decide, by decide, h.1, h.2.1, h.2.2⟩

theorem jsIndexOf_append_cons (pre post : List Nat) (x : Nat) (h : x ∉ pre) :
    jsIndexOf (pre ++ x :: post) x = (pre.length : Int) := by
  induction pre with
  | nil => simp [jsIndexOf]
  | cons a rest ih =>
    simp only [List.mem_cons] at h
    push_neg at h
    have ha : a ≠ x := fun hh => h.1 hh.symm
    have hr := ih h.2
    rw [List.cons_append]
    show (if a = x then (0 : Int)
      else
        let r := jsIndexOf (rest ++ x :: post) x
        if r < 0 then -1 else r + 1) = ((a :: rest).length : Int)
    rw [if_neg ha]
    simp only [hr]
    have hnn : ¬((rest.length : Int) < 0) := by
      simp
    rw [if_neg hnn]
    simp only [List.length_cons]
    push_cast
    ring

theorem filter_ne_append_cons (pre post : List Nat) (x : Nat)
    (hp : x ∉ pre) (hq : x ∉ post) :
    (pre ++ x :: post).filter (fun id => id != x) = pre ++ post := by
  rw [List.filter_append]
  have h1 : pre.filter (fun id => id != x) = pre := by
    apply List.filter_eq_self.mpr
    intro a ha
    simp only [bne_iff_ne, ne_eq, decide_eq_true_eq]
    exact fun hh => hp (hh ▸ ha)
  have h2 : post.filter (fun id => id != x) = post := by
    apply List.filter_eq_self.mpr
    intro a ha
    simp only [bne_iff_ne, ne_eq, decide_eq_true_eq]
    exact fun hh => hq (hh ▸ ha)
  simp [h1, List.filter_cons, h2]

/-- C2: closing the active tab (with the prompt skipped or no blocker and
no unsaved flag) activates the tab occupying the closed position in the new
order (the head of the suffix after the closed id); when the closed tab was
last, the previous tab (the last of the prefix); and when the registry
becomes empty, no tab. -/
theorem closeTabById_activates_neighbor (s : TabServiceState) (tabId : Nat)
    (ts : TabState) (skip confirm : Bool) (pre post : List Nat)
    (hdecomp : s.tabOrder = pre ++ tabId :: post)
    (hnd : s.tabOrder.Nodup)
    (hres : ∀ id ∈ s.tabOrder, (jsMapGet s.tabs id).isSome = true)
    (htab : jsMapGet s.tabs tabId = some ts)
    (hact : s.activeTabId = some tabId)
    (hsk : skip = true ∨ (ts.activeBlocker = false ∧ ts.unsaved = false)) :
    (post = [] → pre = [] →
      (closeTabById s tabId skip confirm).1.activeTabId = none) ∧
    (post ≠ [] →
      (closeTabById s tabId skip confirm).1.activeTabId = post.head?) ∧
    (post = [] → pre ≠ [] →
      (closeTabById s tabId skip confirm).1.activeTabId = pre.getLast?) := by
  have hnd2 : (pre ++ tabId :: post).Nodup := hdecomp ▸ hnd
  obtain ⟨hndpre, hndcons, hdisj⟩ := List.nodup_append.mp hnd2
  have hpre : tabId ∉ pre := fun hh => hdisj hh (List.mem_cons_self _ _)
  have hpost : tabId ∉ post := (List.nodup_cons.mp hndcons).1
  have hpr : (!skip && (ts.activeBlocker || ts.unsaved)) = false := by
    rcases hsk with h | ⟨hb, hu⟩
    · simp [h]
    · simp [hb, hu]
  have hclose : (closeTabById s tabId skip confirm).1 =
      setActiveTab { s with
        tabsIndex := closeIndexUpdate s.tabsIndex ts.source.sourceName ts.source.sourceId
        tabs := jsMapDelete s.tabs tabId
        tabOrder := s.tabOrder.filter (fun id => id != tabId) }
        (closeNewActive s.activeTabId s.tabOrder tabId) := by
    unfold closeTabById
    rw [htab]
    simp [hpr]
  have horder : s.tabOrder.filter (fun id => id != tabId) = pre ++ post := by
    rw [hdecomp]
    exact filter_ne_append_cons pre post tabId hpre hpost
  have hci : jsIndexOf s.tabOrder tabId = (pre.length : Int) := by
    rw [hdecomp]
    exact jsIndexOf_append_cons pre post tabId hpre
  refine ⟨?_, ?_, ?_⟩
  · intro hpo hpe
    have hempty : s.tabOrder.filter (fun id => id != tabId) = [] := by
      rw [horder, hpo, hpe]
      rfl
    have hna : closeNewActive s.activeTabId s.tabOrder tabId = none := by
      unfold closeNewActive
      rw [hact, hempty]
      simp
    rw [hclose, hna]
    simp [setActiveTab]
  · intro hpo
    obtain ⟨h0, tl, hht⟩ := List.exists_cons_of_ne_nil hpo
    have hlen : pre.length < (s.tabOrder.filter (fun id => id != tabId)).length := by
      rw [horder, hht]
      simp
    have hne0 : ¬(pre ++ post).length = 0 := by
      rw [hht]
      simp
    have hlt : (pre.length : Int) < ((pre ++ post).length : Int) := by
      rw [horder] at hlen
      exact_mod_cast hlen
    have hge : ((pre.length : Int)) ≥ 0 := by positivity
    have hna : closeNewActive s.activeTabId s.tabOrder tabId =
        (pre ++ post)[pre.length]? := by
      simp only [closeNewActive]
      rw [hact, hci, horder]
      rw [if_neg (by simp : ¬(some tabId ≠ some tabId))]
      rw [if_neg hne0, if_pos hlt, if_pos hge]
      rw [Int.toNat_natCast]
    have hval : (pre ++ post)[pre.length]? = some h0 := by
      rw [List.getElem?_append_right (le_refl pre.length), hht]
      simp
    have hmem : h0 ∈ s.tabOrder := by
      rw [hdecomp, hht]
      simp
    have hneq : h0 ≠ tabId := by
      intro hh
      rw [hh] at hht
      exact hpost (hht ▸ List.mem_cons_self _ _)
    obtain ⟨ts0, hts0⟩ := Option.isSome_iff_exists.mp (hres h0 hmem)
    rw [hclose, hna, hval]
    have hg : jsMapGet (jsMapDelete s.tabs tabId) h0 = some ts0 := by
      rw [jsMapGet_delete_ne _ _ _ hneq, hts0]
    simp [setActiveTab, hg, hht]
  · intro hpo hpe
    obtain ⟨p0, ptl, hpt⟩ := List.exists_cons_of_ne_nil hpe
    have hlast : ∃ lastId, pre.getLast? = some lastId := by
      rw [hpt]
      exact ⟨(p0 :: ptl).getLast (by simp), List.getLast?_eq_getLast _ _⟩
    obtain ⟨lastId, hlastId⟩ := hlast
    have hmempre : lastId ∈ pre := by
      have h2 := hlastId
      rw [List.getLast?_eq_getElem?] at h2
      exact List.getElem?_mem h2
    have hordpost : s.tabOrder.filter (fun id => id != tabId) = pre := by
      rw [horder, hpo]
      simp
    have hlen0 : ¬pre.length = 0 := by
      rw [hpt]
      simp
    have hlenpos : 1 ≤ pre.length := Nat.pos_of_ne_zero hlen0
    have hnlt : ¬((pre.length : Int) < (pre.length : Int)) := lt_irrefl _
    have hge : ((pre.length : Int) - 1) ≥ 0 := by
      have : (1 : Int) ≤ (pre.length : Int) := by exact_mod_cast hlenpos
      omega
    have hna : closeNewActive s.activeTabId s.tabOrder tabId =
        pre[pre.length - 1]? := by
      simp only [closeNewActive]
      rw [hact, hci, hordpost]
      rw [if_neg (by simp : ¬(some tabId ≠ some tabId))]
      rw [if_neg hlen0, if_neg hnlt, if_pos hge]
      congr 1
      omega
    have hval : pre[pre.length - 1]? = some lastId := by
      rw [← List.getLast?_eq_getElem? pre, hlastId]
    have hmem : lastId ∈ s.tabOrder := by
      rw [hdecomp]
      simp [hmempre]
    have hneq : lastId ≠ tabId := by
      intro hh
      exact hpre (hh ▸ hmempre)
    obtain ⟨ts0, hts0⟩ := Option.isSome_iff_exists.mp (hres lastId hmem)
    rw [hclose, hna, hval, hlastId]
    have hg : jsMapGet (jsMapDelete s.tabs tabId) lastId = some ts0 := by
      rw [jsMapGet_delete_ne _ _ _ hneq, hts0]
    simp [setActiveTab, hg]

theorem closeTabById_activates_neighbor_witness :
    (runOps [TabOp.openT srcA none, TabOp.openT srcB none,
      TabOp.openT srcA none]).tabOrder = [] ++ 1 :: [2] ∧
    (runOps [TabOp.openT srcA none, TabOp.openT srcB none,
      TabOp.openT srcA none]).activeTabId = some 1 ∧
    (closeTabById (runOps [TabOp.openT srcA none, TabOp.openT srcB none,
      TabOp.openT srcA none]) 1 true true).1.activeTabId = some 2 := by
  have h := closeTabById_activates_neighbor
    (runOps [TabOp.openT srcA none, TabOp.openT srcB none, TabOp.openT srcA none])
    1 (createTabStore 1 srcA srcA.defaultTitle none) true true [] [2]
    (by decide) (by decide) (by decide) (by decide) (by decide) (Or.inl rfl)
  refine ⟨by decide, by decide, ?_⟩
  simpa using h.2.1 (by decide)

theorem ordKeys_of_same_fields (s q : TabServiceState) (ht : q.tabs = s.tabs)
    (ho : q.tabOrder = s.tabOrder) (h : ordKeys s) : ordKeys q := by
  unfold ordKeys at h ⊢
  rw [ht, ho]
  exact h

theorem upsert_fields (s : TabServiceState) (tid : Nat) (source : AbstractTabSource)
    (config : Option Bool) (h0 : tid ≠ 0) :
    (upsertTabSource s (some tid) source config).tabs =
      jsMapSet s.tabs tid (createTabStore tid source source.defaultTitle config) ∧
    (upsertTabSource s (some tid) source config).tabOrder =
      (if tid ∈ s.tabOrder then s.tabOrder else s.tabOrder ++ [tid]) ∧
    (upsertTabSource s (some tid) source config).tabIdSequence = s.tabIdSequence ∧
    (upsertTabSource s (some tid) source config).previewTabId = s.previewTabId := by
  rw [upsertTabSource_eq _ _ _ _ h0]
  exact ⟨(setActiveTab_frame _ _).1, (setActiveTab_frame _ _).2.2.1,
    (setActiveTab_frame _ _).2.2.2.1, (setActiveTab_frame _ _).2.2.2.2.1⟩

theorem ordKeys_upsert (s : TabServiceState) (tabId : Option Nat)
    (source : AbstractTabSource) (config : Option Bool) (h : ordKeys s) :
    ordKeys (upsertTabSource s tabId source config) := by
  match tabId with
  | none => exact h
  | some tid =>
    by_cases h0 : tid = 0
    · simp only [upsertTabSource, if_pos h0]
      exact h
    · obtain ⟨htabs, horder, -, -⟩ := upsert_fields s tid source config h0
      constructor
      · rw [horder]
        by_cases hmem : tid ∈ s.tabOrder
        · rw [if_pos hmem]
          exact h.1
        · rw [if_neg hmem]
          rw [List.nodup_append]
          refine ⟨h.1, List.nodup_singleton _, ?_⟩
          intro a ha hb
          simp at hb
          exact hmem (hb ▸ ha)
      · intro id
        rw [horder, htabs, mem_jsMapKeys_set]
        by_cases hmem : tid ∈ s.tabOrder
        · rw [if_pos hmem]
          constructor
          · intro hi
            exact Or.inl ((h.2 id).mp hi)
          · rintro (hi | hi)
            · exact (h.2 id).mpr hi
            · exact hi ▸ hmem
        · rw [if_neg hmem]
          simp only [List.mem_append, List.mem_singleton]
          constructor
          · rintro (hi | hi)
            · exact Or.inl ((h.2 id).mp hi)
            · exact Or.inr hi
          · rintro (hi | hi)
            · exact Or.inl ((h.2 id).mpr hi)
            · exact Or.inr hi

theorem closeTabById_shape (s : TabServiceState) (tabId : Nat) (skip confirm : Bool) :
    (closeTabById s tabId skip confirm).1 = s ∨
    ∃ ts, jsMapGet s.tabs tabId = some ts ∧
      (closeTabById s tabId skip confirm).1 =
        setActiveTab { s with
          tabsIndex := closeIndexUpdate s.tabsIndex ts.source.sourceName ts.source.sourceId
          tabs := jsMapDelete s.tabs tabId
          tabOrder := s.tabOrder.filter (fun id => id != tabId) }
          (closeNewActive s.activeTabId s.tabOrder tabId) := by
  unfold closeTabById
  cases hg : jsMapGet s.tabs tabId with
  | none => exact Or.inl rfl
  | some ts =>
    by_cases hc : ((!skip && (ts.activeBlocker || ts.unsaved)) && !confirm) = true
    · left
      simp [hc]
    · right
      refine ⟨ts, rfl, ?_⟩
      simp only [Bool.not_eq_true] at hc
      simp [hc]

theorem openTabPreviewBase_fields (s : TabServiceState) :
    (openTabPreviewBase s).tabs = s.tabs ∧
    (openTabPreviewBase s).tabOrder = s.tabOrder ∧
    (openTabPreviewBase s).tabIdSequence = s.tabIdSequence ∧
    (openTabPreviewBase s).previewTabId = s.previewTabId ∧
    (openTabPreviewBase s).activeTabId = s.activeTabId := by
  unfold openTabPreviewBase
  by_cases h : (truthyId s.previewTabId && s.previewTabSource.isSome) = true
  · rw [if_pos h]
    cases s.previewTabSource <;> simp
  · rw [if_neg h]
    simp

theorem openTab_shape (s : TabServiceState) (source : AbstractTabSource)
    (config : Option Bool) :
    (openTab s source config =
      setActiveTab s (getTabIdBySource s source.sourceId source.sourceName)) ∨
    (∃ p, s.previewTabId = some p ∧ config.getD false = true ∧
      openTab s source config =
        setPreviewTab (upsertTabSource (openTabPreviewBase s)
          (some p) source (some true)) p) ∨
    (s.previewTabId = none ∧ config.getD false = true ∧
      openTab s source config =
        setPreviewTab (upsertTabSource { s with tabIdSequence := s.tabIdSequence + 1 }
          (some (s.tabIdSequence + 1)) source (some true)) (s.tabIdSequence + 1)) ∨
    (config.getD false = false ∧
      openTab s source config =
        upsertTabSource { s with tabIdSequence := s.tabIdSequence + 1 }
          (some (s.tabIdSequence + 1)) source none) := by
  by_cases hex : truthyId (getTabIdBySource s source.sourceId source.sourceName) = true
  · left
    simp [openTab, hex]
  · have hexf : truthyId (getTabIdBySource s source.sourceId source.sourceName) = false := by
      simpa using hex
    by_cases hcfg : config.getD false = true
    · cases hpv : s.previewTabId with
      | some p =>
        right
        left
        refine ⟨p, rfl, hcfg, ?_⟩
        have hb : (openTabPreviewBase s).previewTabId = some p := by
          rw [(openTabPreviewBase_fields s).2.2.2.1, hpv]
        simp only [openTab, hexf, Bool.false_eq_true, if_false, hcfg, if_true, hb]
      | none =>
        right
        right
        left
        refine ⟨rfl, hcfg, ?_⟩
        have hbs : openTabPreviewBase s = s := by
          simp [openTabPreviewBase, hpv, truthyId]
        simp only [openTab, hexf, Bool.false_eq_true, if_false, hcfg, if_true, hbs, hpv,
          _generateNewTabId]
    · right
      right
      right
      have hcfgf : config.getD false = false := by
        simpa using hcfg
      refine ⟨hcfgf, ?_⟩
      simp only [openTab, hexf, Bool.false_eq_true, if_false, hcfgf, _generateNewTabId]

/-- C6: openTab, upsertTabSource, closeTabById and (given a permutation of
the current order) updateTabOrder all preserve the invariant that the tab
order lists exactly the keys of the tab map with no duplicates. -/
theorem registry_ops_preserve_order_keys :
    (∀ s source config, ordKeys s → ordKeys (openTab s source config)) ∧
    (∀ s tabId source config, ordKeys s → ordKeys (upsertTabSource s tabId source config)) ∧
    (∀ s tabId skip confirm, ordKeys s → ordKeys (closeTabById s tabId skip confirm).1) ∧
    (∀ s newOrder, List.Perm newOrder s.tabOrder → ordKeys s →
      ordKeys (updateTabOrder s newOrder)) := by
  refine ⟨?_, fun s tabId source config h => ordKeys_upsert s tabId source config h, ?_, ?_⟩
  · intro s source config h
    rcases openTab_shape s source config with heq | ⟨p, hpv, hc, heq⟩ | ⟨hpv, hc, heq⟩ | ⟨hc, heq⟩
    · rw [heq]
      exact ordKeys_of_same_fields _ _ (setActiveTab_frame _ _).1
        (setActiveTab_frame _ _).2.2.1 h
    · rw [heq]
      apply ordKeys_of_same_fields _ _ (setPreviewTab_frame _ _).1
        (setPreviewTab_frame _ _).2.2.1
      apply ordKeys_upsert
      exact ordKeys_of_same_fields _ _ (openTabPreviewBase_fields s).1
        (openTabPreviewBase_fields s).2.1 h
    · rw [heq]
      apply ordKeys_of_same_fields _ _ (setPreviewTab_frame _ _).1
        (setPreviewTab_frame _ _).2.2.1
      apply ordKeys_upsert
      exact ordKeys_of_same_fields _ _ rfl rfl h
    · rw [heq]
      apply ordKeys_upsert
      exact ordKeys_of_same_fields _ _ rfl rfl h
  · intro s tabId skip confirm h
    rcases closeTabById_shape s tabId skip confirm with heq | ⟨ts, hget, heq⟩
    · rw [heq]
      exact h
    · rw [heq]
      apply ordKeys_of_same_fields _ _ (setActiveTab_frame _ _).1
        (setActiveTab_frame _ _).2.2.1
      constructor
      · exact h.1.filter _
      · intro id
        show id ∈ s.tabOrder.filter (fun i => i != tabId) ↔
          id ∈ jsMapKeys (jsMapDelete s.tabs tabId)
        rw [jsMapKeys_delete]
        rw [List.mem_filter, List.mem_filter]
        rw [h.2 id]
  · intro s newOrder hperm h
    constructor
    · exact (hperm.nodup_iff).mpr h.1
    · intro id
      show id ∈ newOrder ↔ id ∈ jsMapKeys s.tabs
      rw [hperm.mem_iff]
      exact h.2 id

theorem registry_ops_preserve_order_keys_witness :
    ordKeys initialState ∧
    ordKeys (openTab initialState srcA none) ∧
    ordKeys (upsertTabSource stateOneTab (some 2) srcB none) ∧
    ordKeys (closeTabById stateOneTab 1 true true).1 ∧
    List.Perm [1] stateOneTab.tabOrder ∧
    ordKeys (updateTabOrder stateOneTab [1]) := by
  have h0 : ordKeys initialState := by
    constructor
    · exact List.nodup_nil
    · intro id
      simp [initialState, jsMapKeys]
  have hst : stateOneTab = openTab initialState srcA none := rfl
  have h1 : ordKeys stateOneTab := by
    rw [hst]
    exact registry_ops_preserve_order_keys.1 initialState srcA none h0
  have hperm : List.Perm [1] stateOneTab.tabOrder := by
    have hord : stateOneTab.tabOrder = [1] := by decide
    rw [hord]
  exact ⟨h0, registry_ops_preserve_order_keys.1 initialState srcA none h0,
    registry_ops_preserve_order_keys.2.1 stateOneTab (some 2) srcB none h1,
    registry_ops_preserve_order_keys.2.2.1 stateOneTab 1 true true h1,
    hperm,
    registry_ops_preserve_order_keys.2.2.2 stateOneTab [1] hperm h1⟩

theorem upsert_seq (s : TabServiceState) (tabId : Option Nat)
    (source : AbstractTabSource) (config : Option Bool) :
    (upsertTabSource s tabId source config).tabIdSequence = s.tabIdSequence := by
  match tabId with
  | none => rfl
  | some tid =>
    by_cases h0 : tid = 0
    · simp [upsertTabSource, h0]
    · exact (upsert_fields s tid source config h0).2.2.1

theorem upsert_preview (s : TabServiceState) (tabId : Option Nat)
    (source : AbstractTabSource) (config : Option Bool) :
    (upsertTabSource s tabId source config).previewTabId = s.previewTabId := by
  match tabId with
  | none => rfl
  | some tid =>
    by_cases h0 : tid = 0
    · simp [upsertTabSource, h0]
    · exact (upsert_fields s tid source config h0).2.2.2

theorem upsert_keys_subset (s : TabServiceState) (tabId : Option Nat)
    (source : AbstractTabSource) (config : Option Bool) :
    ∀ id ∈ jsMapKeys (upsertTabSource s tabId source config).tabs,
      id ∈ jsMapKeys s.tabs ∨ tabId = some id := by
  intro id hid
  match tabId with
  | none => exact Or.inl hid
  | some tid =>
    by_cases h0 : tid = 0
    · simp only [upsertTabSource, if_pos h0] at hid
      exact Or.inl hid
    · rw [(upsert_fields s tid source config h0).1] at hid
      rcases (mem_jsMapKeys_set _ _ _ _).mp hid with h | h
      · exact Or.inl h
      · exact Or.inr (by rw [h])

theorem setPreviewTab_previewTabId (s : TabServiceState) (id : Nat) :
    ((setPreviewTab s id).previewTabId = some id ∧ id ∈ jsMapKeys s.tabs) ∨
    ((setPreviewTab s id).previewTabId = none ∧ id ∉ jsMapKeys s.tabs) := by
  unfold setPreviewTab
  cases hg : jsMapGet s.tabs id with
  | some ts =>
    left
    refine ⟨rfl, ?_⟩
    rw [← jsMapGet_isSome_iff_mem_keys]
    rw [hg]
    rfl
  | none =>
    right
    refine ⟨rfl, ?_⟩
    rw [← jsMapGet_isSome_iff_mem_keys]
    rw [hg]
    simp

theorem updateTabBySource_frame (s : TabServiceState) (sourceId sourceName : String)
    (u : TabUpdates) :
    jsMapKeys (updateTabBySource s sourceId sourceName u).tabs = jsMapKeys s.tabs ∧
    (updateTabBySource s sourceId sourceName u).tabIdSequence = s.tabIdSequence ∧
    (updateTabBySource s sourceId sourceName u).previewTabId = s.previewTabId := by
  unfold updateTabBySource
  cases hg : getTabIdBySource s sourceId sourceName with
  | none => exact ⟨rfl, rfl, rfl⟩
  | some tid =>
    by_cases h0 : tid = 0
    · simp [h0]
    · cases hgt : jsMapGet s.tabs tid with
      | none => simp [h0, hgt]
      | some ts =>
        have hmem : tid ∈ jsMapKeys s.tabs := by
          rw [← jsMapGet_isSome_iff_mem_keys, hgt]
          rfl
        simp [h0, hgt, jsMapKeys_set_of_mem _ _ _ hmem]

theorem applyOp_seq_mono (s : TabServiceState) (op : TabOp) :
    s.tabIdSequence ≤ (applyOp s op).tabIdSequence := by
  cases op with
  | openT source config =>
    show s.tabIdSequence ≤ (openTab s source config).tabIdSequence
    rcases openTab_shape s source config with heq | ⟨p, hpv, hc, heq⟩ | ⟨hpv, hc, heq⟩ |
      ⟨hc, heq⟩
    · rw [heq, (setActiveTab_frame _ _).2.2.2.1]
    · rw [heq, (setPreviewTab_frame _ _).2.2.2.1, upsert_seq,
        (openTabPreviewBase_fields s).2.2.1]
    · rw [heq, (setPreviewTab_frame _ _).2.2.2.1, upsert_seq]
      exact Nat.le_succ _
    · rw [heq, upsert_seq]
      exact Nat.le_succ _
  | closeT tabId skip confirm =>
    show s.tabIdSequence ≤ (closeTabById s tabId skip confirm).1.tabIdSequence
    rcases closeTabById_shape s tabId skip confirm with heq | ⟨ts, hget, heq⟩
    · rw [heq]
    · rw [heq, (setActiveTab_frame _ _).2.2.2.1]
  | updateT sourceId sourceName u =>
    show s.tabIdSequence ≤ (updateTabBySource s sourceId sourceName u).tabIdSequence
    rw [(updateTabBySource_frame s sourceId sourceName u).2.1]
  | setPreviewT id =>
    show s.tabIdSequence ≤ (setPreviewTab s id).tabIdSequence
    rw [(setPreviewTab_frame _ _).2.2.2.1]

theorem idsBounded_applyOp (s : TabServiceState) (op : TabOp) (h : idsBounded s) :
    idsBounded (applyOp s op) := by
  cases op with
  | openT source config =>
    show idsBounded (openTab s source config)
    rcases openTab_shape s source config with heq | ⟨p, hpv, hc, heq⟩ | ⟨hpv, hc, heq⟩ |
      ⟨hc, heq⟩
    · rw [heq]
      constructor
      · intro id hid
        rw [(setActiveTab_frame _ _).1] at hid
        rw [(setActiveTab_frame _ _).2.2.2.1]
        exact h.1 id hid
      · intro q hq
        rw [(setActiveTab_frame _ _).2.2.2.2.1] at hq
        rw [(setActiveTab_frame _ _).2.2.2.1]
        exact h.2 q hq
    · rw [heq]
      have hpb : p ≤ s.tabIdSequence := h.2 p hpv
      have hbase := openTabPreviewBase_fields s
      have hu_seq : (upsertTabSource (openTabPreviewBase s) (some p) source
          (some true)).tabIdSequence = s.tabIdSequence := by
        rw [upsert_seq, hbase.2.2.1]
      constructor
      · intro id hid
        rw [(setPreviewTab_frame _ _).1] at hid
        rw [(setPreviewTab_frame _ _).2.2.2.1, hu_seq]
        rcases upsert_keys_subset _ _ _ _ id hid with hk | hk
        · rw [hbase.1] at hk
          exact h.1 id hk
        · cases hk
          exact hpb
      · intro q hq
        rw [(setPreviewTab_frame _ _).2.2.2.1, hu_seq]
        rcases setPreviewTab_previewTabId (upsertTabSource (openTabPreviewBase s)
          (some p) source (some true)) p with ⟨hsp, _⟩ | ⟨hsp, _⟩
        · rw [hsp] at hq
          cases hq
          exact hpb
        · rw [hsp] at hq
          cases hq
    · rw [heq]
      have hu_seq : (upsertTabSource { s with tabIdSequence := s.tabIdSequence + 1 }
          (some (s.tabIdSequence + 1)) source (some true)).tabIdSequence =
          s.tabIdSequence + 1 := by
        rw [upsert_seq]
      constructor
      · intro id hid
        rw [(setPreviewTab_frame _ _).1] at hid
        rw [(setPreviewTab_frame _ _).2.2.2.1, hu_seq]
        rcases upsert_keys_subset _ _ _ _ id hid with hk | hk
        · exact Nat.le_succ_of_le (h.1 id hk)
        · cases hk
          exact le_refl _
      · intro q hq
        rw [(setPreviewTab_frame _ _).2.2.2.1, hu_seq]
        rcases setPreviewTab_previewTabId (upsertTabSource
          { s with tabIdSequence := s.tabIdSequence + 1 }
          (some (s.tabIdSequence + 1)) source (some true)) (s.tabIdSequence + 1) with
          ⟨hsp, _⟩ | ⟨hsp, _⟩
        · rw [hsp] at hq
          cases hq
          exact le_refl _
        · rw [hsp] at hq
          cases hq
    · rw [heq]
      constructor
      · intro id hid
        rw [upsert_seq]
        rcases upsert_keys_subset _ _ _ _ id hid with hk | hk
        · exact Nat.le_succ_of_le (h.1 id hk)
        · cases hk
          exact le_refl _
      · intro q hq
        rw [upsert_seq]
        rw [upsert_preview] at hq
        exact Nat.le_succ_of_le (h.2 q hq)
  | closeT tabId skip confirm =>
    show idsBounded (closeTabById s tabId skip confirm).1
    rcases closeTabById_shape s tabId skip confirm with heq | ⟨ts, hget, heq⟩
    · rw [heq]
      exact h
    · rw [heq]
      constructor
      · intro id hid
        rw [(setActiveTab_frame _ _).1] at hid
        rw [(setActiveTab_frame _ _).2.2.2.1]
        simp only [jsMapKeys_delete, List.mem_filter] at hid
        exact h.1 id hid.1
      · intro q hq
        rw [(setActiveTab_frame _ _).2.2.2.2.1] at hq
        rw [(setActiveTab_frame _ _).2.2.2.1]
        exact h.2 q hq
  | updateT sourceId sourceName u =>
    show idsBounded (updateTabBySource s sourceId sourceName u)
    obtain ⟨hk, hs, hp⟩ := updateTabBySource_frame s sourceId sourceName u
    constructor
    · intro id hid
      rw [hk] at hid
      rw [hs]
      exact h.1 id hid
    · intro q hq
      rw [hp] at hq
      rw [hs]
      exact h.2 q hq
  | setPreviewT id =>
    show idsBounded (setPreviewTab s id)
    constructor
    · intro i hi
      rw [(setPreviewTab_frame _ _).1] at hi
      rw [(setPreviewTab_frame _ _).2.2.2.1]
      exact h.1 i hi
    · intro q hq
      rw [(setPreviewTab_frame _ _).2.2.2.1]
      rcases setPreviewTab_previewTabId s id with ⟨hsp, hmem⟩ | ⟨hsp, _⟩
      · rw [hsp] at hq
        cases hq
        exact h.1 _ hmem
      · rw [hsp] at hq
        cases hq

theorem foldl_seq_mono (l : List TabOp) (s : TabServiceState) :
    s.tabIdSequence ≤ (l.foldl applyOp s).tabIdSequence := by
  induction l generalizing s with
  | nil => exact le_refl _
  | cons op rest ih =>
    exact le_trans (applyOp_seq_mono s op) (ih (applyOp s op))

theorem idsBounded_foldl (l : List TabOp) (s : TabServiceState) (h : idsBounded s) :
    idsBounded (l.foldl applyOp s) := by
  induction l generalizing s with
  | nil => exact h
  | cons op rest ih =>
    exact ih (applyOp s op) (idsBounded_applyOp s op h)

theorem idsBounded_runOps (ops : List TabOp) : idsBounded (runOps ops) := by
  apply idsBounded_foldl
  constructor
  · intro id hid
    simp [initialState, jsMapKeys] at hid
  · intro p hp
    simp [initialState] at hp

theorem openTab_plain_keys (s : TabServiceState) (source : AbstractTabSource)
    (config : Option Bool) (hc : config.getD false = false) :
    ∀ id ∈ jsMapKeys (openTab s source config).tabs,
      id ∈ jsMapKeys s.tabs ∨ id = s.tabIdSequence + 1 := by
  intro id hid
  rcases openTab_shape s source config with heq | ⟨p, hpv, hcc, heq⟩ | ⟨hpv, hcc, heq⟩ |
    ⟨hcc, heq⟩
  · rw [heq, (setActiveTab_frame _ _).1] at hid
    exact Or.inl hid
  · rw [hcc] at hc
    cases hc
  · rw [hcc] at hc
    cases hc
  · rw [heq] at hid
    rcases upsert_keys_subset _ _ _ _ id hid with hk | hk
    · exact Or.inl hk
    · injection hk with hk
      exact Or.inr hk.symm

/-- C4 counterexample: open a preview source (tab id 1), close that tab
(id 1 leaves the tab map), then open another preview source: the closed
id 1 is assigned to the newly created tab and no new id is generated,
refuting the claim that no closed-tab identifier is ever reassigned. -/
theorem tab_id_reuse_counterexample :
    jsMapGet (runOps [TabOp.openT srcA (some true),
      TabOp.closeT 1 true true]).tabs 1 = none ∧
    jsMapGet (runOps [TabOp.openT srcA (some true), TabOp.closeT 1 true true,
      TabOp.openT srcB (some true)]).tabs 1 =
      some (createTabStore 1 srcB srcB.defaultTitle (some true)) ∧
    (runOps [TabOp.openT srcA (some true), TabOp.closeT 1 true true,
      TabOp.openT srcB (some true)]).tabIdSequence = 1 :=
  ⟨by decide, by decide, by decide⟩

/-- C4 (amended): identifiers returned by _generateNewTabId are strictly
greater than the current sequence and every operation only grows the
sequence, so generated identifiers are never repeated; and a non-preview
openTab never assigns an id that was present in the tab map at any earlier
point of the operation sequence.  (A closed tab id can be reassigned only
through the preview-slot path, since closeTabById does not clear
previewTabId.) -/
theorem tab_ids_fresh_amended :
    (∀ s, (_generateNewTabId s).1 = s.tabIdSequence + 1 ∧
      (_generateNewTabId s).2.tabIdSequence = s.tabIdSequence + 1) ∧
    (∀ s op, s.tabIdSequence ≤ (applyOp s op).tabIdSequence) ∧
    (∀ ops source config, config.getD false = false →
      ∀ id, id ∈ jsMapKeys (openTab (runOps ops) source config).tabs →
        id ∉ jsMapKeys (runOps ops).tabs →
        ∀ j, j ≤ ops.length → id ∉ jsMapKeys (runOps (ops.take j)).tabs) := by
  refine ⟨fun s => ⟨rfl, rfl⟩, applyOp_seq_mono, ?_⟩
  intro ops source config hc id hid hnot j hj hmem
  rcases openTab_plain_keys (runOps ops) source config hc id hid with hk | hk
  · exact hnot hk
  · have hbound := (idsBounded_runOps (ops.take j)).1 id hmem
    have hseqmono : (runOps (ops.take j)).tabIdSequence ≤
        (runOps ops).tabIdSequence := by
      have hsplit : runOps ops = (ops.drop j).foldl applyOp (runOps (ops.take j)) := by
        unfold runOps
        rw [← List.foldl_append, List.take_append_drop]
      rw [hsplit]
      exact foldl_seq_mono _ _
    omega

theorem tab_ids_fresh_amended_witness :
    2 ∈ jsMapKeys (openTab (runOps [TabOp.openT srcA none, TabOp.closeT 1 true true])
      srcB none).tabs ∧
    2 ∉ jsMapKeys (runOps [TabOp.openT srcA none, TabOp.closeT 1 true true]).tabs ∧
    2 ∉ jsMapKeys
      (runOps ([TabOp.openT srcA none, TabOp.closeT 1 true true].take 1)).tabs := by
  refine ⟨by decide, by decide, ?_⟩
  exact tab_ids_fresh_amended.2.2 [TabOp.openT srcA none, TabOp.closeT 1 true true]
    srcB none (by decide) 2 (by decide) (by decide) 1 (by decide)

theorem mem_jsMapSet_elim {κ α : Type} [DecidableEq κ] (m : List (κ × α)) (k : κ)
    (v : α) (q : κ × α) (h : q ∈ jsMapSet m k v) : q = (k, v) ∨ q ∈ m := by
  induction m with
  | nil =>
    simp [jsMapSet] at h
    exact Or.inl h
  | cons p rest ih =>
    by_cases hp : p.1 = k
    · simp only [jsMapSet, if_pos hp] at h
      rcases List.mem_cons.mp h with h1 | h1
      · exact Or.inl h1
      · exact Or.inr (List.mem_cons_of_mem _ h1)
    · simp only [jsMapSet, if_neg hp] at h
      rcases List.mem_cons.mp h with h1 | h1
      · exact Or.inr (h1 ▸ List.mem_cons_self _ _)
      · rcases ih h1 with h2 | h2
        · exact Or.inl h2
        · exact Or.inr (List.mem_cons_of_mem _ h2)

theorem mem_jsMapDelete_subset {κ α : Type} [DecidableEq κ] (m : List (κ × α)) (k : κ)
    (q : κ × α) (h : q ∈ jsMapDelete m k) : q ∈ m := by
  induction m with
  | nil =>
    simp [jsMapDelete] at h
  | cons p rest ih =>
    by_cases hp : p.1 = k
    · simp only [jsMapDelete, if_pos hp] at h
      exact List.mem_cons_of_mem _ (ih h)
    · simp only [jsMapDelete, if_neg hp] at h
      rcases List.mem_cons.mp h with h1 | h1
      · exact h1 ▸ List.mem_cons_self _ _
      · exact List.mem_cons_of_mem _ (ih h1)

theorem filter_flag_le_one (m : List (Nat × TabState)) (p : Option Nat)
    (hnd : (jsMapKeys m).Nodup)
    (hflag : ∀ q ∈ m, (q : Nat × TabState).2.preview = true → p = some q.1) :
    (m.filter (fun q => q.2.preview)).length ≤ 1 := by
  induction m with
  | nil => simp
  | cons a rest ih =>
    simp only [jsMapKeys, List.map_cons, List.nodup_cons] at hnd
    by_cases ha : a.2.preview = true
    · have hrest : rest.filter (fun q => q.2.preview) = [] := by
        rw [List.filter_eq_nil_iff]
        intro q hq hqp
        have h1 := hflag a (List.mem_cons_self _ _) ha
        have h2 := hflag q (List.mem_cons_of_mem _ hq) hqp
        have hq1 : q.1 = a.1 := by
          rw [h1] at h2
          injection h2 with h2
          exact h2.symm
        exact hnd.1 (hq1 ▸ List.mem_map_of_mem (fun x => x.1) hq)
      simp [List.filter_cons, ha, hrest]
    · simp only [List.filter_cons, ha, if_false]
      exact ih hnd.2 (fun q hq hqp => hflag q (List.mem_cons_of_mem _ hq) hqp)

theorem previewFlagInv_applyOp (s : TabServiceState) (op : TabOp)
    (hop : isOpenOrClose op) (h : previewFlagInv s) :
    previewFlagInv (applyOp s op) := by
  cases op with
  | openT source config =>
    show previewFlagInv (openTab s source config)
    rcases openTab_shape s source config with heq | ⟨p, hpv, hcc, heq⟩ | ⟨hpv, hcc, heq⟩ |
      ⟨hcc, heq⟩
    · rw [heq]
      constructor
      · rw [(setActiveTab_frame _ _).1]
        exact h.1
      · intro q hq hqp
        rw [(setActiveTab_frame _ _).1] at hq
        rw [(setActiveTab_frame _ _).2.2.2.2.1]
        exact h.2 q hq hqp
    · rw [heq]
      have hbase := openTabPreviewBase_fields s
      by_cases hp0 : p = 0
      · have hu : upsertTabSource (openTabPreviewBase s) (some p) source (some true) =
            openTabPreviewBase s := by
          rw [hp0]
          simp [upsertTabSource]
        rw [hu]
        constructor
        · rw [(setPreviewTab_frame _ _).1, hbase.1]
          exact h.1
        · intro q hq hqp
          rw [(setPreviewTab_frame _ _).1, hbase.1] at hq
          have hq1 := h.2 q hq hqp
          rw [hpv] at hq1
          injection hq1 with hq1
          rcases setPreviewTab_previewTabId (openTabPreviewBase s) p with ⟨hsp, _⟩ |
            ⟨hsp, hnk⟩
          · rw [hsp, hq1]
          · exfalso
            apply hnk
            rw [hbase.1]
            rw [hq1]
            exact List.mem_map_of_mem (fun x => x.1) hq
      · have hufields := upsert_fields (openTabPreviewBase s) p source (some true) hp0
        have hutabs : (upsertTabSource (openTabPreviewBase s) (some p) source
            (some true)).tabs = jsMapSet s.tabs p
              (createTabStore p source source.defaultTitle (some true)) := by
          rw [hufields.1, hbase.1]
        have hpin : p ∈ jsMapKeys (upsertTabSource (openTabPreviewBase s) (some p) source
            (some true)).tabs := by
          rw [hutabs, ← jsMapGet_isSome_iff_mem_keys, jsMapGet_set_self]
          rfl
        constructor
        · rw [(setPreviewTab_frame _ _).1, hutabs]
          exact nodup_jsMapKeys_set _ _ _ h.1
        · intro q hq hqp
          rw [(setPreviewTab_frame _ _).1, hutabs] at hq
          rcases setPreviewTab_previewTabId (upsertTabSource (openTabPreviewBase s)
            (some p) source (some true)) p with ⟨hsp, _⟩ | ⟨hsp, hnk⟩
          · rw [hsp]
            rcases mem_jsMapSet_elim _ _ _ _ hq with hq1 | hq1
            · rw [hq1]
            · have hq2 := h.2 q hq1 hqp
              rw [hpv] at hq2
              injection hq2 with hq2
              rw [hq2]
          · exact absurd hpin hnk
    · rw [heq]
      have hufields := upsert_fields { s with tabIdSequence := s.tabIdSequence + 1 }
        (s.tabIdSequence + 1) source (some true) (Nat.succ_ne_zero _)
      have hutabs : (upsertTabSource { s with tabIdSequence := s.tabIdSequence + 1 }
          (some (s.tabIdSequence + 1)) source (some true)).tabs =
          jsMapSet s.tabs (s.tabIdSequence + 1)
            (createTabStore (s.tabIdSequence + 1) source source.defaultTitle
              (some true)) := hufields.1
      have hpin : (s.tabIdSequence + 1) ∈ jsMapKeys (upsertTabSource
          { s with tabIdSequence := s.tabIdSequence + 1 }
          (some (s.tabIdSequence + 1)) source (some true)).tabs := by
        rw [hutabs, ← jsMapGet_isSome_iff_mem_keys, jsMapGet_set_self]
        rfl
      constructor
      · rw [(setPreviewTab_frame _ _).1, hutabs]
        exact nodup_jsMapKeys_set _ _ _ h.1
      · intro q hq hqp
        rw [(setPreviewTab_frame _ _).1, hutabs] at hq
        rcases setPreviewTab_previewTabId (upsertTabSource
          { s with tabIdSequence := s.tabIdSequence + 1 }
          (some (s.tabIdSequence + 1)) source (some true)) (s.tabIdSequence + 1) with
          ⟨hsp, _⟩ | ⟨hsp, hnk⟩
        · rw [hsp]
          rcases mem_jsMapSet_elim _ _ _ _ hq with hq1 | hq1
          · rw [hq1]
          · have hq2 := h.2 q hq1 hqp
            rw [hpv] at hq2
            cases hq2
        · exact absurd hpin hnk
    · rw [heq]
      have hufields := upsert_fields { s with tabIdSequence := s.tabIdSequence + 1 }
        (s.tabIdSequence + 1) source none (Nat.succ_ne_zero _)
      constructor
      · rw [hufields.1]
        exact nodup_jsMapKeys_set _ _ _ h.1
      · intro q hq hqp
        rw [hufields.1] at hq
        rw [upsert_preview]
        show s.previewTabId = some q.1
        rcases mem_jsMapSet_elim _ _ _ _ hq with hq1 | hq1
        · rw [hq1] at hqp
          simp [createTabStore] at hqp
        · exact h.2 q hq1 hqp
  | closeT tabId skip confirm =>
    show previewFlagInv (closeTabById s tabId skip confirm).1
    rcases closeTabById_shape s tabId skip confirm with heq | ⟨ts, hget, heq⟩
    · rw [heq]
      exact h
    · rw [heq]
      constructor
      · rw [(setActiveTab_frame _ _).1]
        exact nodup_jsMapKeys_delete _ _ h.1
      · intro q hq hqp
        rw [(setActiveTab_frame _ _).1] at hq
        rw [(setActiveTab_frame _ _).2.2.2.2.1]
        exact h.2 q (mem_jsMapDelete_subset _ _ _ hq) hqp
  | updateT sourceId sourceName u =>
    exact absurd hop (by simp [isOpenOrClose])
  | setPreviewT id =>
    exact absurd hop (by simp [isOpenOrClose])

theorem previewFlagInv_foldl (l : List TabOp) (s : TabServiceState)
    (h : previewFlagInv s) (hl : ∀ op ∈ l, isOpenOrClose op) :
    previewFlagInv (l.foldl applyOp s) := by
  induction l generalizing s with
  | nil => exact h
  | cons op rest ih =>
    exact ih (applyOp s op)
      (previewFlagInv_applyOp s op (hl op (List.mem_cons_self _ _)) h)
      (fun o ho => hl o (List.mem_cons_of_mem _ ho))

/-- C8 counterexample: open a preview tab, open a second plain tab, then
mark the second tab preview through updateTabBySource: two tabs now carry
the preview flag, refuting the at-most-one bound for sequences that include
updateTabBySource preview updates. -/
theorem preview_flag_counterexample :
    previewCount (runOps [TabOp.openT srcA (some true), TabOp.openT srcB none,
      TabOp.updateT "b" "n"
        { title := Option.none, preview := some true, icon := Option.none }]) = 2 := by
  decide

/-- C8 (amended): along every sequence of openTab and closeTabById
operations from the initial state at most one tab carries the preview flag
(every flagged tab is the tab designated by previewTabId); the
updateTabBySource preview path can exceed the bound, as the counterexample
shows. -/
theorem preview_at_most_one_amended (ops : List TabOp)
    (hops : ∀ op ∈ ops, isOpenOrClose op) :
    previewCount (runOps ops) ≤ 1 := by
  have hinv : previewFlagInv (runOps ops) := by
    apply previewFlagInv_foldl _ _ _ hops
    constructor
    · exact List.nodup_nil
    · intro q hq hqp
      simp [initialState] at hq
  exact filter_flag_le_one _ (runOps ops).previewTabId hinv.1 hinv.2

theorem preview_at_most_one_amended_witness :
    (∀ op ∈ [TabOp.openT srcA (some true), TabOp.openT srcB none], isOpenOrClose op) ∧
    previewCount (runOps [TabOp.openT srcA (some true), TabOp.openT srcB none]) ≤ 1 := by
  have hops : ∀ op ∈ [TabOp.openT srcA (some true), TabOp.openT srcB none],
      isOpenOrClose op := by
    intro op hop
    rcases List.mem_cons.mp hop with h1 | hop
    · rw [h1]
      trivial
    · rcases List.mem_cons.mp hop with h1 | hop
      · rw [h1]
        trivial
      · simp at hop
  exact ⟨hops, preview_at_most_one_amended _ hops⟩
